import Mathlib

/-!
Shallow embedding of the collision / spatial-transform core of
`meteors.py` (classes `Vector2`, `Line`, `WObject`, `Collider`).

Python floats are modelled as exact rationals (`ℚ`); float literals such
as `0.1`, `FL_EPS` and `FL_MIN` become the corresponding exact rationals.
The trigonometric functions `math.sin(math.radians d)` and
`math.cos(math.radians d)` used by the transform pipeline are foreign
library calls; they are modelled as abstract function parameters
`sinD cosD : ℚ → ℚ` (taking the angle in degrees), so every theorem about
the pipeline holds for an arbitrary interpretation of them.
Python list indexing (which raises `IndexError` out of range) is modelled
with optional indexing (`List.getElem?`) returning `Option`.
-/

namespace Meteors

/-- `FL_EPS` constant from the source. -/
def FL_EPS : ℚ := 0.0000001192092896

/-- `FL_MIN` constant from the source. -/
def FL_MIN : ℚ := 1.175494e-38

/-- `near(f1, f2, k=1)`: epsilon-tolerant float comparison from the source. -/
def near (f1 f2 k : ℚ) : Bool :=
  decide (|f1 - f2| < k * FL_EPS * |f1 + f2|) || decide (|f1 - f2| < FL_MIN)

/-- 2D vector / point (class `Vector2`). -/
structure Vector2 where
  x : ℚ
  y : ℚ
deriving DecidableEq, Repr

instance : Add Vector2 := ⟨fun v w => ⟨v.x + w.x, v.y + w.y⟩⟩

instance : Sub Vector2 := ⟨fun v w => ⟨v.x - w.x, v.y - w.y⟩⟩

theorem Vector2.add_def (v w : Vector2) : v + w = ⟨v.x + w.x, v.y + w.y⟩ := rfl

theorem Vector2.sub_def (v w : Vector2) : v - w = ⟨v.x - w.x, v.y - w.y⟩ := rfl

/-- Line segment (class `Line`): the two stored endpoints. -/
structure Line where
  start : Vector2
  stop : Vector2
deriving DecidableEq, Repr

/-- `Line.__init__`: when the two endpoints coincide exactly, the start
point is nudged by `+0.1` on both axes before being stored. -/
def mkLine (start stop : Vector2) : Line :=
  if start.y = stop.y ∧ start.x = stop.x then
    ⟨⟨start.x + 0.1, start.y + 0.1⟩, stop⟩
  else
    ⟨start, stop⟩

/-- `Line.get_abc`: coefficients `A, B, C` such that the infinite line is
`A x + B y = C`. -/
def get_abc (l : Line) : ℚ × ℚ × ℚ :=
  let a := l.stop.y - l.start.y
  let b := l.start.x - l.stop.x
  let c := a * l.start.x + b * l.start.y
  (a, b, c)

/-- `Line.within(point)`: bounding-box membership with `near` on a
degenerate axis and a strict open-interval test otherwise. -/
def within (l : Line) (point : Vector2) : Bool :=
  let c1 :=
    if near l.start.x l.stop.x 1 then
      near point.x l.start.x 1
    else
      decide (point.x < max l.start.x l.stop.x) &&
      decide (point.x > min l.start.x l.stop.x)
  let c2 :=
    if near l.start.y l.stop.y 1 then
      near point.y l.start.y 1
    else
      decide (point.y < max l.start.y l.stop.y) &&
      decide (point.y > min l.start.y l.stop.y)
  c1 && c2

/-- `Line.intersection(line)`: intersection point of the two infinite
lines via Cramer's rule, `none` when the determinant is exactly zero. -/
def intersection (l1 l2 : Line) : Option Vector2 :=
  let (a1, b1, c1) := get_abc l1
  let (a2, b2, c2) := get_abc l2
  let det := a1 * b2 - a2 * b1
  if det = 0 then
    none
  else
    some ⟨(b2 * c1 - b1 * c2) / det, (a1 * c2 - a2 * c1) / det⟩

/-- `Line.intersect(line)`: true when the infinite-line intersection
point exists and lies within both segments' boxes. -/
def intersect (l1 l2 : Line) : Bool :=
  match intersection l1 l2 with
  | some point => within l1 point && within l2 point
  | none => false

/-- The mutable state of a `WObject` that the transform pipeline and the
history (lag) buffers touch: current position and orientation, the two
fixed-depth lag buffers, the local shape points, anchor, size, and the
buffer depth `state_buffer` (5 in `WObject.__init__`). -/
structure WObject where
  state_buffer : ℕ
  pos : Vector2
  last_pos : List Vector2
  deg : ℚ
  last_deg : List ℚ
  size : Vector2
  points : List Vector2
  anchor : Vector2
deriving Repr

/-- `WObject.init_pos`: set the position and fill the lag buffer with
`state_buffer` copies of it. -/
def init_pos (w : WObject) (p : Vector2) : WObject :=
  { w with pos := p, last_pos := List.replicate w.state_buffer p }

/-- `WObject.update_pos`: push the previous current position into slot 0
of the lag buffer (`insert(0, ...)`), drop the oldest entry (`pop()`),
then set the new current position. -/
def update_pos (w : WObject) (p : Vector2) : WObject :=
  { w with last_pos := ((w.pos :: w.last_pos).dropLast), pos := p }

/-- `WObject.init_deg`: set the orientation and fill its lag buffer. -/
def init_deg (w : WObject) (d : ℚ) : WObject :=
  { w with deg := d, last_deg := List.replicate w.state_buffer d }

/-- `WObject.update_deg`: push the previous orientation into slot 0 of
the lag buffer, drop the oldest entry, then set the new orientation. -/
def update_deg (w : WObject) (d : ℚ) : WObject :=
  { w with last_deg := ((w.deg :: w.last_deg).dropLast), deg := d }

/-- `WObject.get_point_transformed(index, num)`: anchor-centering, scale,
rotation by the (possibly lagged) orientation, translation by the
(possibly lagged) position.  `sinD`/`cosD` interpret
`math.sin(math.radians _)` / `math.cos(math.radians _)`; out-of-range
list accesses (Python `IndexError`) yield `none`. -/
def get_point_transformed (sinD cosD : ℚ → ℚ) (w : WObject)
    (index num : ℕ) : Option Vector2 :=
  let num := num % w.state_buffer
  match w.points[index]? with
  | none => none
  | some point =>
    let point := point - w.anchor
    let point : Vector2 := ⟨point.x * w.size.x, point.y * w.size.y⟩
    let degQ : Option ℚ :=
      if num > 0 then w.last_deg[num - 1]? else some w.deg
    match degQ with
    | none => none
    | some deg =>
      let s := sinD deg
      let c := cosD deg
      let point : Vector2 :=
        ⟨point.x * c - point.y * s, point.x * s + point.y * c⟩
      let posQ : Option Vector2 :=
        if num > 0 then w.last_pos[num - 1]? else some w.pos
      match posQ with
      | none => none
      | some pos => some (point + pos)

/-- A world object as the collision dispatcher sees it: its runtime class
name (`self.__class__.__name__`), its removal flag, and an identity tag
so distinct objects of a kind can be told apart. -/
structure WObj where
  kind : String
  remove : Bool
  tag : ℕ
deriving DecidableEq, Repr

/-- A registered `[detector, handler]` pair.  Handlers mutate game state
in the source; only their identity matters to the registry, so they are
carried as opaque values of the same shape as detectors. -/
structure Methods where
  detect : WObj → WObj → Bool
  handle : WObj → WObj → Bool

/-- The `Collider` registry: the nested dict `method_dict[type1][type2]`
is flattened to an association list keyed by the ordered pair of class
names; `register_methods` keeps each ordered key unique, so `find?`
lookup agrees with the nested-dict lookup. -/
structure Collider where
  method_dict : List ((String × String) × Methods)

/-- `Collider._find_methods(type1, type2)`. -/
def find_methods (c : Collider) (type1 type2 : String) : Option Methods :=
  (c.method_dict.find? fun e => e.1.1 == type1 && e.1.2 == type2).map (·.2)

/-- `Collider.register_methods`: raises when the ordered pair is already
registered in either order, otherwise stores the new entry. -/
def register_methods (c : Collider) (detector handler : WObj → WObj → Bool)
    (type1 type2 : String) : Except String Collider :=
  if (find_methods c type1 type2).isSome || (find_methods c type2 type1).isSome then
    Except.error ("Already registered methods for " ++ type1 ++ " and " ++ type2)
  else
    Except.ok ⟨c.method_dict ++ [((type1, type2), ⟨detector, handler⟩)]⟩

/-- `Collider.collide(obj1, obj2)`: false if either object is flagged for
removal; otherwise look the kind pair up in both orders and invoke the
registered detector with its arguments in registration order. -/
def collide (c : Collider) (obj1 obj2 : WObj) : Bool :=
  if obj1.remove || obj2.remove then
    false
  else
    match find_methods c obj1.kind obj2.kind with
    | some methods1 => methods1.detect obj1 obj2
    | none =>
      match find_methods c obj2.kind obj1.kind with
      | some methods2 => methods2.detect obj2 obj1
      | none => false

/-! ### Helper lemmas for the registry -/

/-- Looking a pair up after appending one entry: the old lookup first,
then the new entry when its key matches. -/
theorem find_methods_append (c : Collider) (m : Methods) (s1 s2 t1 t2 : String) :
    find_methods ⟨c.method_dict ++ [((s1, s2), m)]⟩ t1 t2 =
      ((find_methods c t1 t2).or
        (if s1 == t1 && s2 == t2 then some m else none)) := by
  unfold find_methods
  rw [List.find?_append]
  by_cases h : (s1 == t1 && s2 == t2) = true
  all_goals cases hfm : List.find? (fun e => e.1.1 == t1 && e.1.2 == t2) c.method_dict
  all_goals simp [h, hfm]

/-- C1: after a successful `register_methods(detect, handle, A, B)`, a
`collide` call with the two objects in either order invokes the detector
with its arguments in the original registration order, `detect objA objB`,
and returns its result. -/
theorem collide_invokes_detector_in_registration_order
    (c c' : Collider) (det han : WObj → WObj → Bool)
    (A B : String) (objA objB : WObj)
    (hreg : register_methods c det han A B = Except.ok c')
    (hAB : A ≠ B) (hA : objA.kind = A) (hB : objB.kind = B)
    (hrA : objA.remove = false) (hrB : objB.remove = false) :
    collide c' objB objA = det objA objB ∧
    collide c' objA objB = det objA objB := by
  unfold register_methods at hreg
  by_cases hdup : ((find_methods c A B).isSome || (find_methods c B A).isSome) = true
  · rw [if_pos hdup] at hreg; exact absurd hreg (by simp)
  · rw [if_neg hdup] at hreg
    have hc' : c' = ⟨c.method_dict ++ [((A, B), ⟨det, han⟩)]⟩ := by
      cases hreg; rfl
    simp only [Bool.or_eq_true, Option.isSome_iff_exists, not_or] at hdup
    have hfwd : find_methods c A B = none := by
      cases hfm : find_methods c A B with
      | none => rfl
      | some m => exact absurd ⟨m, hfm⟩ hdup.1
    have hrev : find_methods c B A = none := by
      cases hfm : find_methods c B A with
      | none => rfl
      | some m => exact absurd ⟨m, hfm⟩ hdup.2
    have hAB' : (A == B) = false := by
      simp [hAB]
    have h1 : find_methods c' A B = some ⟨det, han⟩ := by
      rw [hc', find_methods_append, hfwd]
      simp
    have h2 : find_methods c' B A = none := by
      rw [hc', find_methods_append, hrev]
      simp [hAB']
    constructor
    · unfold collide
      rw [hrA, hrB, hA, hB]
      simp only [Bool.or_self, if_false, Bool.false_or]
      rw [h2, h1]
      simp
    · unfold collide
      rw [hrA, hrB, hA, hB]
      simp only [Bool.or_self, if_false, Bool.false_or]
      rw [h1]
      simp

/-- C1 witness: on a concrete one-entry registry, `collide` called with
the arguments reversed still returns the detector's value for the
registration order. -/
theorem collide_invokes_detector_in_registration_order_witness :
    collide ⟨[(("A", "B"), ⟨fun a b => a.tag == 1 && b.tag == 2, fun _ _ => true⟩)]⟩
      ⟨"B", false, 2⟩ ⟨"A", false, 1⟩ = true := by
  have h := collide_invokes_detector_in_registration_order ⟨[]⟩
    ⟨[(("A", "B"), ⟨fun a b => a.tag == 1 && b.tag == 2, fun _ _ => true⟩)]⟩
    (fun a b => a.tag == 1 && b.tag == 2) (fun _ _ => true) "A" "B"
    ⟨"A", false, 1⟩ ⟨"B", false, 2⟩ rfl (by decide) rfl rfl rfl rfl
  exact h.1.trans rfl

/-- C2: when an entry already exists for the unordered pair (in either
order), registering it again in either order raises (no new registry is
produced); when no entry exists, registration succeeds and the new entry
is found. -/
theorem register_methods_unordered_pair_unique
    (c : Collider) (det han det2 han2 : WObj → WObj → Bool) (K1 K2 : String) :
    (((find_methods c K1 K2).isSome ∨ (find_methods c K2 K1).isSome) →
      register_methods c det2 han2 K1 K2 =
        Except.error ("Already registered methods for " ++ K1 ++ " and " ++ K2) ∧
      register_methods c det2 han2 K2 K1 =
        Except.error ("Already registered methods for " ++ K2 ++ " and " ++ K1)) ∧
    (find_methods c K1 K2 = none → find_methods c K2 K1 = none →
      register_methods c det han K1 K2 =
        Except.ok ⟨c.method_dict ++ [((K1, K2), ⟨det, han⟩)]⟩ ∧
      find_methods ⟨c.method_dict ++ [((K1, K2), ⟨det, han⟩)]⟩ K1 K2 =
        some ⟨det, han⟩) := by
  constructor
  · intro hdup
    unfold register_methods
    have h1 : ((find_methods c K1 K2).isSome || (find_methods c K2 K1).isSome) = true := by
      rcases hdup with h | h <;> simp [h]
    have h2 : ((find_methods c K2 K1).isSome || (find_methods c K1 K2).isSome) = true := by
      rcases hdup with h | h <;> simp [h]
    rw [if_pos h1, if_pos h2]
    exact ⟨rfl, rfl⟩
  · intro h1 h2
    constructor
    · unfold register_methods
      rw [h1, h2]
      rfl
    · rw [find_methods_append, h1]
      simp

/-- C2 witness: a concrete duplicate registration (reversed order) on a
one-entry registry produces the error. -/
theorem register_methods_unordered_pair_unique_witness :
    register_methods ⟨[(("A", "B"), ⟨fun _ _ => true, fun _ _ => true⟩)]⟩
      (fun _ _ => false) (fun _ _ => false) "B" "A" =
      Except.error ("Already registered methods for " ++ "B" ++ " and " ++ "A") := by
  have h := (register_methods_unordered_pair_unique
    ⟨[(("A", "B"), ⟨fun _ _ => true, fun _ _ => true⟩)]⟩
    (fun _ _ => true) (fun _ _ => true) (fun _ _ => false) (fun _ _ => false)
    "A" "B").1 (Or.inl rfl)
  exact h.2

/-- C8: `collide` returns false when either object is flagged for
removal, and returns false when no entry is registered for the kind pair
in either order — in both cases regardless of the registered detectors. -/
theorem collide_removed_or_unregistered_false (c : Collider) (o1 o2 : WObj) :
    ((o1.remove = true ∨ o2.remove = true) → collide c o1 o2 = false) ∧
    (find_methods c o1.kind o2.kind = none →
      find_methods c o2.kind o1.kind = none → collide c o1 o2 = false) := by
  constructor
  · intro h
    unfold collide
    rcases h with h | h <;> simp [h]
  · intro h1 h2
    unfold collide
    rw [h1, h2]
    simp

/-- C8 witness: a concrete removed object yields false. -/
theorem collide_removed_or_unregistered_false_witness :
    collide ⟨[]⟩ ⟨"A", true, 0⟩ ⟨"B", false, 1⟩ = false :=
  (collide_removed_or_unregistered_false ⟨[]⟩ ⟨"A", true, 0⟩ ⟨"B", false, 1⟩).1
    (Or.inl rfl)

/-! ### Geometry claims -/

/-- C9: after `Line` construction the stored endpoints differ; bit-identical
inputs get `start` perturbed by exactly `+0.1` on both axes, any other
inputs are stored unchanged. -/
theorem mkLine_invariant (s e : Vector2) :
    (mkLine s e).start ≠ (mkLine s e).stop ∧
    (s = e → mkLine s e = ⟨⟨s.x + 0.1, s.y + 0.1⟩, e⟩) ∧
    (s ≠ e → mkLine s e = ⟨s, e⟩) := by
  unfold mkLine
  by_cases h : s.y = e.y ∧ s.x = e.x
  · rw [if_pos h]
    have hse : s = e := by
      cases s; cases e; simp_all
    refine ⟨fun hcon => ?_, fun _ => rfl, fun hne => absurd hse hne⟩
    have hx : s.x + 0.1 = e.x := congrArg Vector2.x hcon
    rw [← h.2] at hx
    linarith
  · rw [if_neg h]
    have hse : s ≠ e := by
      intro hcon
      exact h ⟨congrArg Vector2.y hcon, congrArg Vector2.x hcon⟩
    exact ⟨hse, fun heq => absurd heq hse, fun _ => rfl⟩

/-- C9 witness: the degenerate input `(0,0), (0,0)` is perturbed and the
stored endpoints differ. -/
theorem mkLine_invariant_witness :
    mkLine ⟨0, 0⟩ ⟨0, 0⟩ =
      ⟨⟨(0 : ℚ) + 0.1, (0 : ℚ) + 0.1⟩, ⟨0, 0⟩⟩ ∧
    (mkLine ⟨0, 0⟩ ⟨0, 0⟩).start ≠ (mkLine ⟨0, 0⟩ ⟨0, 0⟩).stop :=
  ⟨(mkLine_invariant ⟨0, 0⟩ ⟨0, 0⟩).2.1 rfl, (mkLine_invariant ⟨0, 0⟩ ⟨0, 0⟩).1⟩

/-- C4: `intersection` returns `none` exactly when the determinant of the
two general-form coefficient rows is zero; otherwise it returns the
Cramer's-rule point, which is the unique solution of the 2x2 system, with
the coefficients computed as in `get_abc`. -/
theorem intersection_cramer (l1 l2 : Line) (a1 b1 c1 a2 b2 c2 : ℚ)
    (h1 : get_abc l1 = (a1, b1, c1)) (h2 : get_abc l2 = (a2, b2, c2)) :
    (a1 = l1.stop.y - l1.start.y ∧ b1 = l1.start.x - l1.stop.x ∧
      c1 = a1 * l1.start.x + b1 * l1.start.y) ∧
    (intersection l1 l2 = none ↔ a1 * b2 - a2 * b1 = 0) ∧
    (a1 * b2 - a2 * b1 ≠ 0 →
      intersection l1 l2 =
        some ⟨(b2 * c1 - b1 * c2) / (a1 * b2 - a2 * b1),
              (a1 * c2 - a2 * c1) / (a1 * b2 - a2 * b1)⟩ ∧
      ∀ p, intersection l1 l2 = some p →
        (a1 * p.x + b1 * p.y = c1 ∧ a2 * p.x + b2 * p.y = c2) ∧
        ∀ q : Vector2, a1 * q.x + b1 * q.y = c1 → a2 * q.x + b2 * q.y = c2 →
          q = p) := by
  have habc : a1 = l1.stop.y - l1.start.y ∧ b1 = l1.start.x - l1.stop.x ∧
      c1 = a1 * l1.start.x + b1 * l1.start.y := by
    unfold get_abc at h1
    simp only [Prod.mk.injEq] at h1
    refine ⟨h1.1.symm, h1.2.1.symm, ?_⟩
    rw [← h1.1, ← h1.2.1]
    exact h1.2.2.symm
  have hint : intersection l1 l2 =
      if a1 * b2 - a2 * b1 = 0 then none
      else some ⟨(b2 * c1 - b1 * c2) / (a1 * b2 - a2 * b1),
                 (a1 * c2 - a2 * c1) / (a1 * b2 - a2 * b1)⟩ := by
    unfold intersection
    rw [h1, h2]
  refine ⟨habc, ?_, ?_⟩
  · rw [hint]
    by_cases hdet : a1 * b2 - a2 * b1 = 0
    · simp [hdet]
    · simp [hdet]
  · intro hdet
    rw [hint, if_neg hdet]
    refine ⟨rfl, ?_⟩
    intro p hp
    have hpp : p = ⟨(b2 * c1 - b1 * c2) / (a1 * b2 - a2 * b1),
                    (a1 * c2 - a2 * c1) / (a1 * b2 - a2 * b1)⟩ :=
      (Option.some.injEq _ _ ▸ hp).symm
    subst hpp
    refine ⟨⟨?_, ?_⟩, ?_⟩
    · field_simp
      ring
    · field_simp
      ring
    · intro q hq1 hq2
      have hx : q.x = (b2 * c1 - b1 * c2) / (a1 * b2 - a2 * b1) := by
        field_simp
        linear_combination b2 * hq1 - b1 * hq2
      have hy : q.y = (a1 * c2 - a2 * c1) / (a1 * b2 - a2 * b1) := by
        field_simp
        linear_combination a1 * hq2 - a2 * hq1
      cases q
      simp_all

/-- C4 witness: two concrete crossing segments intersect at `(1, 1)`. -/
theorem intersection_cramer_witness :
    intersection (mkLine ⟨0, 0⟩ ⟨2, 2⟩) (mkLine ⟨0, 2⟩ ⟨2, 0⟩) = some ⟨1, 1⟩ := by
  have h := (intersection_cramer (mkLine ⟨0, 0⟩ ⟨2, 2⟩) (mkLine ⟨0, 2⟩ ⟨2, 0⟩)
    2 (-2) 0 (-2) (-2) (-4)
    (by norm_num [get_abc, mkLine, Prod.ext_iff])
    (by norm_num [get_abc, mkLine, Prod.ext_iff])).2.2 (by norm_num)
  refine h.1.trans ?_
  norm_num

/-- C5: `intersect` is true iff the infinite-line intersection point
exists and lies `within` both segments; parallel lines give false. -/
theorem intersect_iff_point_within_both (l1 l2 : Line) :
    (intersect l1 l2 = true ↔
      ∃ p, intersection l1 l2 = some p ∧ within l1 p = true ∧ within l2 p = true) ∧
    (intersection l1 l2 = none → intersect l1 l2 = false) := by
  constructor
  · cases h : intersection l1 l2 with
    | none => simp [intersect, h]
    | some p => simp [intersect, h]
  · intro h
    simp [intersect, h]

/-- C5 witness: two concrete crossing segments report `intersect = true`. -/
theorem intersect_iff_point_within_both_witness :
    intersect (mkLine ⟨0, 0⟩ ⟨2, 2⟩) (mkLine ⟨0, 2⟩ ⟨2, 0⟩) = true := by
  refine (intersect_iff_point_within_both (mkLine ⟨0, 0⟩ ⟨2, 2⟩)
    (mkLine ⟨0, 2⟩ ⟨2, 0⟩)).1.mpr ⟨⟨1, 1⟩, ?_, ?_, ?_⟩
  · norm_num [intersection, get_abc, mkLine]
  · norm_num [within, mkLine, near, FL_EPS, FL_MIN]
  · norm_num [within, mkLine, near, FL_EPS, FL_MIN]

/-- C3 counterexample: for the segment from `(0,0)` to `(2,2)` the stored
start endpoint is `(0,0)`, yet `within` is false there — the claim that
`within` holds at the segment's endpoints fails on this code. -/
theorem within_endpoint_counterexample :
    (mkLine ⟨0, 0⟩ ⟨2, 2⟩).start = ⟨0, 0⟩ ∧
    within (mkLine ⟨0, 0⟩ ⟨2, 2⟩) ⟨0, 0⟩ = false := by
  constructor
  · norm_num [mkLine]
  · norm_num [within, mkLine, near, FL_EPS, FL_MIN]

/-- `near` is reflexively true: `|a - a| = 0 < FL_MIN`. -/
theorem near_refl_true (a : ℚ) : near a a 1 = true := by
  simp only [near, sub_self, abs_zero, Bool.or_eq_true, decide_eq_true_eq]
  right
  norm_num [FL_MIN]

/-- C3 amended: for a segment that is non-degenerate (not `near`) on both
axes, `within` is false at both endpoints (the strict open-interval test
excludes them), true at the midpoint, and false at any point whose x or y
coordinate lies on or beyond the bounding box of the endpoints. -/
theorem within_amended (l : Line)
    (hx : near l.start.x l.stop.x 1 = false)
    (hy : near l.start.y l.stop.y 1 = false) :
    within l l.start = false ∧ within l l.stop = false ∧
    within l ⟨(l.start.x + l.stop.x) / 2, (l.start.y + l.stop.y) / 2⟩ = true ∧
    (∀ p : Vector2,
      (max l.start.x l.stop.x ≤ p.x ∨ p.x ≤ min l.start.x l.stop.x ∨
       max l.start.y l.stop.y ≤ p.y ∨ p.y ≤ min l.start.y l.stop.y) →
      within l p = false) := by
  have hxx : l.start.x ≠ l.stop.x := by
    intro heq
    rw [heq, near_refl_true] at hx
    exact Bool.noConfusion hx
  have hyy : l.start.y ≠ l.stop.y := by
    intro heq
    rw [heq, near_refl_true] at hy
    exact Bool.noConfusion hy
  refine ⟨?_, ?_, ?_, ?_⟩
  · simp only [within, hx, hy, Bool.false_eq_true, if_false, Bool.and_eq_false_iff,
      decide_eq_false_iff_not, not_lt, gt_iff_lt]
    rcases hxx.lt_or_lt with h | h
    · left; right; simp [min_eq_left h.le]
    · left; left; simp [max_eq_left h.le]
  · simp only [within, hx, hy, Bool.false_eq_true, if_false, Bool.and_eq_false_iff,
      decide_eq_false_iff_not, not_lt, gt_iff_lt]
    rcases hxx.lt_or_lt with h | h
    · left; left; simp [max_eq_right h.le]
    · left; right; simp [min_eq_right h.le]
  · simp only [within, hx, hy, Bool.false_eq_true, if_false, Bool.and_eq_true,
      decide_eq_true_eq, gt_iff_lt, lt_max_iff, min_lt_iff]
    constructor
    · rcases hxx.lt_or_lt with h | h
      · exact ⟨Or.inr (by linarith), Or.inl (by linarith)⟩
      · exact ⟨Or.inl (by linarith), Or.inr (by linarith)⟩
    · rcases hyy.lt_or_lt with h | h
      · exact ⟨Or.inr (by linarith), Or.inl (by linarith)⟩
      · exact ⟨Or.inl (by linarith), Or.inr (by linarith)⟩
  · intro p hp
    simp only [within, hx, hy, Bool.false_eq_true, if_false, Bool.and_eq_false_iff,
      decide_eq_false_iff_not, not_lt, gt_iff_lt]
    rcases hp with h | h | h | h
    · exact Or.inl (Or.inl h)
    · exact Or.inl (Or.inr h)
    · exact Or.inr (Or.inl h)
    · exact Or.inr (Or.inr h)

/-- C3 amended witness: concrete segment `(0,0)-(2,2)`: endpoints are not
within, the midpoint is, and a far point is not. -/
theorem within_amended_witness :
    within (mkLine ⟨0, 0⟩ ⟨2, 2⟩) ⟨0, 0⟩ = false ∧
    within (mkLine ⟨0, 0⟩ ⟨2, 2⟩) ⟨2, 2⟩ = false ∧
    within (mkLine ⟨0, 0⟩ ⟨2, 2⟩) ⟨(0 + 2 : ℚ) / 2, (0 + 2 : ℚ) / 2⟩ = true ∧
    within (mkLine ⟨0, 0⟩ ⟨2, 2⟩) ⟨5, 1⟩ = false := by
  have h := within_amended (mkLine ⟨0, 0⟩ ⟨2, 2⟩)
    (by norm_num [mkLine, near, FL_EPS, FL_MIN])
    (by norm_num [mkLine, near, FL_EPS, FL_MIN])
  have hs : (mkLine ⟨0, 0⟩ ⟨2, 2⟩).start = (⟨0, 0⟩ : Vector2) := by norm_num [mkLine]
  have he : (mkLine ⟨0, 0⟩ ⟨2, 2⟩).stop = (⟨2, 2⟩ : Vector2) := by norm_num [mkLine]
  refine ⟨hs ▸ h.1, he ▸ h.2.1, ?_, ?_⟩
  · have := h.2.2.1
    rw [hs, he] at this
    exact this
  · refine h.2.2.2 ⟨5, 1⟩ ?_
    rw [hs, he]
    left
    norm_num

/-! ### Transform pipeline and history claims -/

/-- A local point that coincides with the anchor transforms to exactly the
(possibly lagged) position: the anchor subtraction yields the zero vector,
which every scale and rotation fixes. -/
theorem gpt_anchor (sinD cosD : ℚ → ℚ) (w : WObject) (i num : ℕ)
    (hpt : w.points[i]? = some w.anchor)
    (hdeg : num % w.state_buffer - 1 < w.last_deg.length ∨ num % w.state_buffer = 0) :
    get_point_transformed sinD cosD w i num =
      if 0 < num % w.state_buffer then w.last_pos[num % w.state_buffer - 1]?
      else some w.pos := by
  unfold get_point_transformed
  rw [hpt]
  by_cases h0 : 0 < num % w.state_buffer
  · have hdl : num % w.state_buffer - 1 < w.last_deg.length := by
      rcases hdeg with h | h
      · exact h
      · omega
    obtain ⟨dg, hdg⟩ : ∃ dg, w.last_deg[num % w.state_buffer - 1]? = some dg :=
      ⟨_, List.getElem?_eq_getElem hdl⟩
    simp only [gt_iff_lt, h0, if_true, if_pos h0, hdg]
    cases hp : w.last_pos[num % w.state_buffer - 1]? with
    | none => simp
    | some pos =>
      simp only [Option.some.injEq]
      cases pos
      simp [Vector2.sub_def, Vector2.add_def]
  · have hz : num % w.state_buffer = 0 := Nat.eq_zero_of_not_pos h0
    simp only [hz, gt_iff_lt, Nat.lt_irrefl, if_false]
    simp only [Option.some.injEq]
    cases hp : w.pos
    simp [Vector2.sub_def, Vector2.add_def, hp]

/-- C7: with anchor `(0.5, 0.5)` and orientation 0, transforming the
anchor-coincident local point `(0.5, 0.5)` yields exactly the current
position, for any scale and any interpretation of sine/cosine. -/
theorem transform_anchor_coincident (sinD cosD : ℚ → ℚ) (w : WObject) (i : ℕ)
    (hanchor : w.anchor = ⟨0.5, 0.5⟩) (hdeg : w.deg = 0)
    (hpt : w.points[i]? = some ⟨0.5, 0.5⟩) :
    get_point_transformed sinD cosD w i 0 = some w.pos := by
  have h := gpt_anchor sinD cosD w i 0
    (by rw [hpt, hanchor]) (Or.inr (Nat.zero_mod _))
  rw [h]
  simp [Nat.zero_mod]

/-- C7 witness: a concrete object at position `(3, 4)` with scale `(2, 7)`
and arbitrary trig values maps its anchor point to `(3, 4)`. -/
theorem transform_anchor_coincident_witness :
    get_point_transformed (fun _ => 37) (fun _ => 41)
      ⟨5, ⟨3, 4⟩, [], 0, [], ⟨2, 7⟩, [⟨0.5, 0.5⟩], ⟨0.5, 0.5⟩⟩ 0 0 =
      some ⟨3, 4⟩ :=
  transform_anchor_coincident (fun _ => 37) (fun _ => 41)
    ⟨5, ⟨3, 4⟩, [], 0, [], ⟨2, 7⟩, [⟨0.5, 0.5⟩], ⟨0.5, 0.5⟩⟩ 0 rfl rfl rfl

/-- C10: with the depth-5 buffers fully populated and a valid point index,
`get_point_transformed` succeeds for every lag value (the lag is reduced
mod 5 before any buffer access), and lag 5 gives the same result as
lag 0 (the current frame). -/
theorem gpt_total_and_mod (sinD cosD : ℚ → ℚ) (w : WObject) (i : ℕ)
    (hbuf : w.state_buffer = 5)
    (hpos : w.last_pos.length = 5) (hdeg : w.last_deg.length = 5)
    (hi : i < w.points.length) :
    (∀ num : ℕ, (get_point_transformed sinD cosD w i num).isSome = true) ∧
    get_point_transformed sinD cosD w i 5 = get_point_transformed sinD cosD w i 0 := by
  constructor
  · intro num
    unfold get_point_transformed
    obtain ⟨pt, hpt⟩ : ∃ pt, w.points[i]? = some pt := ⟨_, List.getElem?_eq_getElem hi⟩
    rw [hpt]
    have hm : num % w.state_buffer < 5 := by
      rw [hbuf]
      exact Nat.mod_lt _ (by norm_num)
    by_cases h0 : 0 < num % w.state_buffer
    · have h1 : num % w.state_buffer - 1 < w.last_deg.length := by
        rw [hdeg]; omega
      have h2 : num % w.state_buffer - 1 < w.last_pos.length := by
        rw [hpos]; omega
      obtain ⟨dg, hdg⟩ : ∃ dg, w.last_deg[num % w.state_buffer - 1]? = some dg :=
        ⟨_, List.getElem?_eq_getElem h1⟩
      obtain ⟨pg, hpg⟩ : ∃ pg, w.last_pos[num % w.state_buffer - 1]? = some pg :=
        ⟨_, List.getElem?_eq_getElem h2⟩
      simp only [gt_iff_lt, h0, if_true, if_pos h0, hdg, hpg]
      rfl
    · simp only [gt_iff_lt, h0, if_false]
      simp
  · unfold get_point_transformed
    rw [hbuf]

/-- C10 witness: a concrete populated object succeeds at lag 7, and lag 5
equals lag 0. -/
theorem gpt_total_and_mod_witness :
    (get_point_transformed (fun _ => 0) (fun _ => 1)
      ⟨5, ⟨3, 4⟩, [⟨0, 0⟩, ⟨0, 1⟩, ⟨1, 0⟩, ⟨1, 1⟩, ⟨2, 2⟩], 0, [0, 10, 20, 30, 40],
        ⟨1, 1⟩, [⟨0, 0⟩], ⟨0.5, 0.5⟩⟩ 0 7).isSome = true ∧
    get_point_transformed (fun _ => 0) (fun _ => 1)
      ⟨5, ⟨3, 4⟩, [⟨0, 0⟩, ⟨0, 1⟩, ⟨1, 0⟩, ⟨1, 1⟩, ⟨2, 2⟩], 0, [0, 10, 20, 30, 40],
        ⟨1, 1⟩, [⟨0, 0⟩], ⟨0.5, 0.5⟩⟩ 0 5 =
    get_point_transformed (fun _ => 0) (fun _ => 1)
      ⟨5, ⟨3, 4⟩, [⟨0, 0⟩, ⟨0, 1⟩, ⟨1, 0⟩, ⟨1, 1⟩, ⟨2, 2⟩], 0, [0, 10, 20, 30, 40],
        ⟨1, 1⟩, [⟨0, 0⟩], ⟨0.5, 0.5⟩⟩ 0 0 := by
  have h := gpt_total_and_mod (fun _ => 0) (fun _ => 1)
    ⟨5, ⟨3, 4⟩, [⟨0, 0⟩, ⟨0, 1⟩, ⟨1, 0⟩, ⟨1, 1⟩, ⟨2, 2⟩], 0, [0, 10, 20, 30, 40],
      ⟨1, 1⟩, [⟨0, 0⟩], ⟨0.5, 0.5⟩⟩ 0 rfl rfl rfl (by decide)
  exact ⟨h.1 7, h.2⟩

/-- Truncating the right operand of an append to `m` does not change the
first `m` elements of the append. -/
theorem take_append_take {α : Type} (A B : List α) (m : ℕ) :
    (A ++ B.take m).take m = (A ++ B).take m := by
  rw [List.take_append_eq_append_take, List.take_append_eq_append_take,
    List.take_take, Nat.min_eq_left (Nat.sub_le m _)]

/-- `update_pos` touches only `pos` and `last_pos`; every other field
survives a fold of updates. -/
theorem foldl_update_pos_fields (qs : List Vector2) (s : WObject) :
    (qs.foldl update_pos s).points = s.points ∧
    (qs.foldl update_pos s).anchor = s.anchor ∧
    (qs.foldl update_pos s).size = s.size ∧
    (qs.foldl update_pos s).deg = s.deg ∧
    (qs.foldl update_pos s).last_deg = s.last_deg ∧
    (qs.foldl update_pos s).state_buffer = s.state_buffer := by
  induction qs generalizing s with
  | nil => exact ⟨rfl, rfl, rfl, rfl, rfl, rfl⟩
  | cons q qs ih => exact ih (update_pos s q)

/-- The stream `pos :: last_pos` after a fold of `update_pos` calls is the
list of all pushed values, newest first, truncated to `d + 1` entries. -/
theorem foldl_update_pos_stream (qs : List Vector2) (s : WObject) (d : ℕ)
    (hs : s.last_pos.length = d) :
    (qs.foldl update_pos s).pos :: (qs.foldl update_pos s).last_pos =
      (qs.reverse ++ s.pos :: s.last_pos).take (d + 1) := by
  induction qs generalizing s with
  | nil =>
    rw [List.reverse_nil, List.nil_append, List.foldl_nil,
      List.take_of_length_le (by simp [hs])]
  | cons q qs ih =>
    rw [List.foldl_cons]
    have hlen : (update_pos s q).last_pos.length = d := by
      simp [update_pos, List.length_dropLast, hs]
    rw [ih (update_pos s q) hlen]
    have hstream : (update_pos s q).pos :: (update_pos s q).last_pos =
        (q :: s.pos :: s.last_pos).take (d + 1) := by
      show q :: (s.pos :: s.last_pos).dropLast = (q :: s.pos :: s.last_pos).take (d + 1)
      rw [List.dropLast_eq_take, List.take_succ_cons]
      congr 1
      simp [hs]
    show (qs.reverse ++ (update_pos s q).pos :: (update_pos s q).last_pos).take (d + 1) = _
    rw [hstream, take_append_take, List.reverse_cons, List.append_assoc]
    rfl

/-- C6: starting from `init_pos init` and performing the updates
`p0, ..., p(k-1)` with `k < d`, the transform pipeline at an
anchor-coincident point returns, for lag `1 <= n <= k`, the position
`p(k-1-n)` (reading `p(-1)` as the initial position, i.e. entry `k - n` of
`init :: ps`); and before any updates every lag slot `1..d-1` returns the
initial position. -/
theorem history_lag (sinD cosD : ℚ → ℚ) (w0 : WObject) (d k n i : ℕ)
    (init : Vector2) (ps : List Vector2)
    (hd : w0.state_buffer = d)
    (hdl : w0.last_deg.length = d)
    (hk : ps.length = k) (hkd : k < d)
    (hpt : w0.points[i]? = some w0.anchor) :
    (1 ≤ n → n ≤ k →
      get_point_transformed sinD cosD (ps.foldl update_pos (init_pos w0 init)) i n =
        some ((init :: ps).getD (k - n) init)) ∧
    (1 ≤ n → n < d →
      get_point_transformed sinD cosD (init_pos w0 init) i n = some init) := by
  constructor
  · intro h1 h2
    have hnd : n < d := lt_of_le_of_lt h2 hkd
    have hsb : (ps.foldl update_pos (init_pos w0 init)).state_buffer = d := by
      rw [(foldl_update_pos_fields ps (init_pos w0 init)).2.2.2.2.2]
      exact hd
    have hmod : n % (ps.foldl update_pos (init_pos w0 init)).state_buffer = n := by
      rw [hsb]
      exact Nat.mod_eq_of_lt hnd
    have hldeg : (ps.foldl update_pos (init_pos w0 init)).last_deg.length = d := by
      rw [(foldl_update_pos_fields ps (init_pos w0 init)).2.2.2.2.1]
      exact hdl
    have hpt' : (ps.foldl update_pos (init_pos w0 init)).points[i]? =
        some (ps.foldl update_pos (init_pos w0 init)).anchor := by
      rw [(foldl_update_pos_fields ps (init_pos w0 init)).1,
        (foldl_update_pos_fields ps (init_pos w0 init)).2.1]
      exact hpt
    rw [gpt_anchor sinD cosD _ i n hpt' (Or.inl (by rw [hmod, hldeg]; omega))]
    rw [hmod, if_pos (by omega)]
    have hstream := foldl_update_pos_stream ps (init_pos w0 init) d
      (by simp [init_pos, hd])
    have hstream' : (ps.foldl update_pos (init_pos w0 init)).pos ::
        (ps.foldl update_pos (init_pos w0 init)).last_pos =
        (ps.reverse ++ init :: List.replicate d init).take (d + 1) := by
      rw [hstream]
      show (ps.reverse ++ init :: List.replicate w0.state_buffer init).take (d + 1) = _
      rw [hd]
    obtain ⟨m, rfl⟩ : ∃ m, n = m + 1 := ⟨n - 1, by omega⟩
    have hcons : (ps.foldl update_pos (init_pos w0 init)).last_pos[m]? =
        ((ps.foldl update_pos (init_pos w0 init)).pos ::
          (ps.foldl update_pos (init_pos w0 init)).last_pos)[m + 1]? :=
      (List.getElem?_cons_succ).symm
    have hm1 : m + 1 - 1 = m := rfl
    rw [hm1, hcons, hstream',
      List.getElem?_take_of_lt (by omega : m + 1 < d + 1)]
    rcases Nat.lt_or_ge (m + 1) k with hlt | hge
    · rw [List.getElem?_append_left (by simp [hk]; omega),
        List.getElem?_reverse (by simp [hk]; omega)]
      have key : (init :: ps)[k - (m + 1)]? = ps[ps.length - 1 - (m + 1)]? := by
        obtain ⟨j, hjj⟩ : ∃ j, k - (m + 1) = j + 1 := ⟨k - (m + 1) - 1, by omega⟩
        rw [hjj, List.getElem?_cons_succ]
        congr 1
        omega
      rw [List.getD_eq_getElem?_getD, key,
        List.getElem?_eq_getElem (show ps.length - 1 - (m + 1) < ps.length by omega)]
      rfl
    · have heq : m + 1 = k := by omega
      rw [List.getElem?_append_right (by simp [hk, heq])]
      have hz : m + 1 - ps.reverse.length = 0 := by simp [hk, heq]
      rw [hz]
      have hkk : k - (m + 1) = 0 := by omega
      rw [hkk, List.getD_cons_zero, List.getElem?_cons_zero]
  · intro h1 h2
    have hpt0 : (init_pos w0 init).points[i]? = some (init_pos w0 init).anchor := hpt
    have hmod : n % (init_pos w0 init).state_buffer = n := by
      show n % w0.state_buffer = n
      rw [hd]
      exact Nat.mod_eq_of_lt h2
    rw [gpt_anchor sinD cosD _ i n hpt0 (Or.inl (by
      rw [hmod]
      show n - 1 < w0.last_deg.length
      rw [hdl]
      omega))]
    rw [hmod, if_pos (by omega)]
    show (List.replicate w0.state_buffer init)[n - 1]? = some init
    rw [hd, List.getElem?_replicate, if_pos (by omega : n - 1 < d)]

/-- C6 witness: after updates `(2,2), (3,3)` from initial `(1,1)`, lag 1
returns `(2,2)` = `p0`. -/
theorem history_lag_witness :
    get_point_transformed (fun _ => 0) (fun _ => 1)
      ([⟨2, 2⟩, ⟨3, 3⟩].foldl update_pos
        (init_pos ⟨5, ⟨0, 0⟩, [], 0, [0, 0, 0, 0, 0], ⟨1, 1⟩, [⟨0.5, 0.5⟩], ⟨0.5, 0.5⟩⟩
          ⟨1, 1⟩)) 0 1 = some ⟨2, 2⟩ :=
  (history_lag (fun _ => 0) (fun _ => 1)
    ⟨5, ⟨0, 0⟩, [], 0, [0, 0, 0, 0, 0], ⟨1, 1⟩, [⟨0.5, 0.5⟩], ⟨0.5, 0.5⟩⟩
    5 2 1 0 ⟨1, 1⟩ [⟨2, 2⟩, ⟨3, 3⟩] rfl rfl rfl (by decide) rfl).1
    (by decide) (by decide)

end Meteors
